import Mathlib

/-!
Verification of the proxyhouse write-path aggregating proxy (main.go).
Byte strings are modeled as `List Char` (one entry per byte; the source
only inspects ASCII bytes).  Go maps are modeled as functions into
`Option`, and HTTP / disk I/O as explicit oracle arguments.
-/

namespace Proxyhouse

/-- Byte strings (Go byte slices and strings). -/
abbrev Bytes := List Char

/-- The coalescing map `store.Req` of type map from string to byte slice.
`none` models a missing key. -/
def Store := String → Option Bytes

/-- The map at process start. -/
def emptyStore : Store := fun _ => none

/-- Lines 177-186 of `dorequest`: under the lock, insert a fresh buffer when
the fingerprint is absent, otherwise append the delimiter first; then append
the body. -/
def storeAppend (s : Store) (uri : String) (delimiter body : Bytes) : Store :=
  fun k =>
    if k = uri then
      match s uri with
      | none => some body
      | some buf => some (buf ++ delimiter ++ body)
    else s k

/-- Line 287 of `backgroundManager`: delete the drained key from the map. -/
def storeDelete (s : Store) (key : String) : Store :=
  fun k => if k = key then none else s k

/-- An incoming HTTP request as seen by `dorequest`.  `queryParam` is the
decoded `query` URL parameter; `body` is the outcome of reading the request
body (an error models a failed read). -/
structure Request where
  method : String
  path : String
  rawPath : String
  rawQuery : String
  queryParam : String
  body : Except String Bytes

/-- Line 170: the coalescing key, raw path then a question mark then the raw
query string. -/
def fingerprint (r : Request) : String :=
  r.rawPath ++ "?" ++ r.rawQuery

/-- Go strings.HasSuffix: byte-for-byte, case-sensitive suffix test. -/
def hasSuffix (s suffix : String) : Bool :=
  suffix.data.isSuffixOf s.data

/-- Lines 172-176: the delimiter is the configured one unless the decoded
`query` parameter ends with `FORMAT TSV` or `FORMAT CSV`. -/
def chooseDelimiter (delim q : String) : String :=
  if hasSuffix q ("FORMAT TSV") || hasSuffix q ("FORMAT CSV") then "" else delim

/-- `dorequest` (lines 148-204): returns the new store, the new `in` counter
and the HTTP status code (200 when no explicit error status is written). -/
def dorequest (delim : String) (s : Store) (inCount : Nat) (r : Request) :
    Store × Nat × Nat :=
  if r.path ≠ "/" then (s, inCount, 404)
  else if r.method = "GET" then (s, inCount, 200)
  else if r.method = "POST" then
    match r.body with
    | Except.error _ => (s, inCount, 500)
    | Except.ok body =>
      if 0 < body.length then
        (storeAppend s (fingerprint r) (chooseDelimiter delim r.queryParam).data body,
         inCount + 1, 200)
      else (s, inCount, 405)
  else (s, inCount, 405)

/-- A sequence of appends to the fingerprint `F`; each list entry carries the
delimiter computed at that append and the request body. -/
def appendSeq (F : String) : Store → List (Bytes × Bytes) → Store
  | s, [] => s
  | s, (d, b) :: rest => appendSeq F (storeAppend s F d b) rest

/-- The concatenation accumulated on top of `acc`: for every subsequent
append, first its delimiter and then its body. -/
def catFrom (acc : Bytes) : List (Bytes × Bytes) → Bytes
  | [] => acc
  | (d, b) :: rest => catFrom (acc ++ d ++ b) rest

/-- Every key of the coalescing map holds a non-empty buffer. -/
def storeInv (s : Store) : Prop := ∀ k b, s k = some b → b ≠ []

theorem storeAppend_self (s : Store) (uri : String) (d b : Bytes) :
    storeAppend s uri d b uri =
      some (match s uri with | none => b | some buf => buf ++ d ++ b) := by
  unfold storeAppend
  cases h : s uri with
  | none => simp [h]
  | some buf => simp [h]

theorem storeAppend_other (s : Store) (uri k : String) (d b : Bytes)
    (h : k ≠ uri) : storeAppend s uri d b k = s k := by
  unfold storeAppend
  simp [h]

theorem appendSeq_of_present (F : String) (l : List (Bytes × Bytes)) :
    ∀ (s : Store) (acc : Bytes), s F = some acc →
      appendSeq F s l F = some (catFrom acc l) := by
  induction l with
  | nil => intro s acc h; simpa [appendSeq, catFrom] using h
  | cons p rest ih =>
    intro s acc h
    obtain ⟨d, b⟩ := p
    have hstep : storeAppend s F d b F = some (acc ++ d ++ b) := by
      rw [storeAppend_self, h]
    simpa [appendSeq, catFrom] using ih _ _ hstep

/-- C1: starting from a state where the fingerprint `F` is absent from the
coalescing map, a sequence of appends with bodies `b1..bn` (each non-empty)
leaves the buffer `b1 ++ d2 ++ b2 ++ ... ++ dn ++ bn`, where `di` is the
delimiter computed at the i-th append (the first delimiter is never used);
and after the flusher deletes `F`, the next append stores exactly the body
with no leading delimiter. -/
theorem c1_concatenation_fidelity :
    (∀ (s : Store) (F : String) (d1 b1 : Bytes) (l : List (Bytes × Bytes)),
       s F = none → b1 ≠ [] → (∀ p ∈ l, p.2 ≠ []) →
       appendSeq F s ((d1, b1) :: l) F = some (catFrom b1 l)) ∧
    (∀ (s : Store) (F : String) (d b : Bytes),
       storeAppend (storeDelete s F) F d b F = some b) := by
  constructor
  · intro s F d1 b1 l habs _ _
    have hstep : storeAppend s F d1 b1 F = some b1 := by
      rw [storeAppend_self, habs]
    simpa [appendSeq] using appendSeq_of_present F l _ _ hstep
  · intro s F d b
    have habs : storeDelete s F F = none := by
      unfold storeDelete; simp
    rw [storeAppend_self, habs]

theorem c1_concatenation_fidelity_witness :
    appendSeq ("/t?q") emptyStore
        [([','], ['1']), ([','], ['2']), ([], ['3'])] ("/t?q") =
      some ['1', ',', '2', '3'] ∧
    storeAppend (storeDelete emptyStore ("/t?q")) ("/t?q") [','] ['9'] ("/t?q") =
      some ['9'] :=
  ⟨c1_concatenation_fidelity.1 emptyStore ("/t?q") [','] ['1']
      [([','], ['2']), ([], ['3'])] rfl (by decide) (by decide),
   c1_concatenation_fidelity.2 emptyStore ("/t?q") [','] ['9']⟩

/-- C2: the delimiter chosen for an append is empty when the decoded `query`
parameter ends (case-sensitively) with `FORMAT TSV` or `FORMAT CSV`, and is
the configured delimiter otherwise; when the configured delimiter is
non-empty the two cases are exclusive, and the handler makes the choice from
the query parameter of the very request being appended. -/
theorem c2_delimiter_choice :
    (∀ delim q : String,
       (hasSuffix q ("FORMAT TSV") || hasSuffix q ("FORMAT CSV")) = true →
       chooseDelimiter delim q = "") ∧
    (∀ delim q : String,
       (hasSuffix q ("FORMAT TSV") || hasSuffix q ("FORMAT CSV")) = false →
       chooseDelimiter delim q = delim) ∧
    (∀ delim q : String, delim ≠ "" →
       (chooseDelimiter delim q = "" ↔
         (hasSuffix q ("FORMAT TSV") || hasSuffix q ("FORMAT CSV")) = true)) ∧
    (∀ (delim : String) (s : Store) (inCount : Nat) (r : Request) (body : Bytes),
       r.path = "/" → r.method = "POST" → r.body = Except.ok body →
       body ≠ [] →
       (dorequest delim s inCount r).1 =
         storeAppend s (fingerprint r)
           (chooseDelimiter delim r.queryParam).data body) := by
  refine ⟨?_, ?_, ?_, ?_⟩
  · intro delim q h
    unfold chooseDelimiter
    simp [h]
  · intro delim q h
    unfold chooseDelimiter
    simp [h]
  · intro delim q hd
    unfold chooseDelimiter
    by_cases h : (hasSuffix q ("FORMAT TSV") || hasSuffix q ("FORMAT CSV")) = true
    · simp [h]
    · simp only [Bool.not_eq_true] at h
      simp [h, hd]
  · intro delim s inCount r body hp hm hb hne
    have hlen : 0 < body.length := List.length_pos.mpr hne
    simp [dorequest, hp, hm, hb, hlen]

theorem c2_delimiter_choice_witness :
    chooseDelimiter (",") ("INSERT INTO t FORMAT TSV") = "" ∧
    chooseDelimiter (",") ("INSERT INTO t VALUES") = "," ∧
    (chooseDelimiter (",") ("INSERT INTO t VALUES") = "" ↔
      (hasSuffix ("INSERT INTO t VALUES") ("FORMAT TSV") ||
        hasSuffix ("INSERT INTO t VALUES") ("FORMAT CSV")) = true) ∧
    (dorequest (",") emptyStore 0
        ⟨"POST", "/", "", "query=q", "q", Except.ok ['a']⟩).1 =
      storeAppend emptyStore
        (fingerprint ⟨"POST", "/", "", "query=q", "q", Except.ok ['a']⟩)
        (chooseDelimiter (",") ("q")).data ['a'] :=
  ⟨c2_delimiter_choice.1 (",") ("INSERT INTO t FORMAT TSV") (by decide),
   c2_delimiter_choice.2.1 (",") ("INSERT INTO t VALUES") (by decide),
   c2_delimiter_choice.2.2.1 (",") ("INSERT INTO t VALUES") (by decide),
   c2_delimiter_choice.2.2.2 (",") emptyStore 0
     ⟨"POST", "/", "", "query=q", "q", Except.ok ['a']⟩ ['a']
     rfl rfl rfl (by decide)⟩

theorem append_sep_inj {l1 l2 r1 r2 : List Char}
    (h1 : '?' ∉ l1) (h2 : '?' ∉ l2)
    (h : l1 ++ '?' :: r1 = l2 ++ '?' :: r2) : l1 = l2 ∧ r1 = r2 := by
  induction l1 generalizing l2 with
  | nil =>
    cases l2 with
    | nil => simpa using h
    | cons c t =>
      exfalso
      simp only [List.nil_append, List.cons_append, List.cons.injEq] at h
      exact h2 (by simp [← h.1])
  | cons c t ih =>
    cases l2 with
    | nil =>
      exfalso
      simp only [List.nil_append, List.cons_append, List.cons.injEq] at h
      exact h1 (by simp [h.1])
    | cons c2 t2 =>
      simp only [List.cons_append, List.cons.injEq] at h
      have := ih (fun hm => h1 (by simp [hm])) (fun hm => h2 (by simp [hm])) h.2
      exact ⟨by simp [h.1, this.1], this.2⟩

/-- C5: the coalescing key of a buffered POST is exactly the raw path, a
question mark, and the raw query string: the handler mutates no other key,
and two requests whose raw paths (which cannot contain a question mark) or
raw queries differ get distinct fingerprints, while appends to one key leave
every other key untouched. -/
theorem c5_fingerprint_exact :
    (∀ (delim : String) (s : Store) (inCount : Nat) (r : Request) (body : Bytes),
       r.path = "/" → r.method = "POST" → r.body = Except.ok body →
       body ≠ [] →
       ∀ k, k ≠ fingerprint r → (dorequest delim s inCount r).1 k = s k) ∧
    (∀ r1 r2 : Request,
       '?' ∉ r1.rawPath.data → '?' ∉ r2.rawPath.data →
       fingerprint r1 = fingerprint r2 →
       r1.rawPath = r2.rawPath ∧ r1.rawQuery = r2.rawQuery) ∧
    (∀ (s : Store) (k1 k2 : String) (d b : Bytes),
       k2 ≠ k1 → storeAppend s k1 d b k2 = s k2) := by
  refine ⟨?_, ?_, ?_⟩
  · intro delim s inCount r body hp hm hb hne k hk
    have hlen : 0 < body.length := List.length_pos.mpr hne
    simp [dorequest, hp, hm, hb, hlen, storeAppend_other _ _ _ _ _ hk]
  · intro r1 r2 h1 h2 h
    unfold fingerprint at h
    have hdata : r1.rawPath.data ++ '?' :: r1.rawQuery.data =
        r2.rawPath.data ++ '?' :: r2.rawQuery.data := by
      have := congrArg String.data h
      simpa [String.data_append] using this
    have hinj := append_sep_inj h1 h2 hdata
    constructor
    · cases hp1 : r1.rawPath with | mk d1 =>
      cases hp2 : r2.rawPath with | mk d2 =>
      have e1 : d1 = r1.rawPath.data := by rw [hp1]
      have e2 : d2 = r2.rawPath.data := by rw [hp2]
      rw [e1, e2, hinj.1]
    · cases hq1 : r1.rawQuery with | mk d1 =>
      cases hq2 : r2.rawQuery with | mk d2 =>
      have e1 : d1 = r1.rawQuery.data := by rw [hq1]
      have e2 : d2 = r2.rawQuery.data := by rw [hq2]
      rw [e1, e2, hinj.2]
  · intro s k1 k2 d b h
    exact storeAppend_other _ _ _ _ _ h

theorem c5_fingerprint_exact_witness :
    ((dorequest (",") emptyStore 0
        ⟨"POST", "/", "/p", "a=1", "", Except.ok ['x']⟩).1 ("/other?z") =
      emptyStore ("/other?z")) ∧
    ((⟨"POST", "/", "/p", "a=1", "", Except.ok ['x']⟩ : Request).rawPath =
        (⟨"GET", "/", "/p", "a=1", "", Except.ok []⟩ : Request).rawPath) ∧
    ((⟨"POST", "/", "/p", "a=1", "", Except.ok ['x']⟩ : Request).rawQuery =
        (⟨"GET", "/", "/p", "a=1", "", Except.ok []⟩ : Request).rawQuery) ∧
    (storeAppend emptyStore ("/a?x") [','] ['1'] ("/a?y") = emptyStore ("/a?y")) := by
  refine ⟨?_, ?_, ?_, ?_⟩
  · exact c5_fingerprint_exact.1 (",") emptyStore 0
      ⟨"POST", "/", "/p", "a=1", "", Except.ok ['x']⟩ ['x']
      rfl rfl rfl (by decide) ("/other?z") (by decide)
  · exact (c5_fingerprint_exact.2.1
      ⟨"POST", "/", "/p", "a=1", "", Except.ok ['x']⟩
      ⟨"GET", "/", "/p", "a=1", "", Except.ok []⟩
      (by decide) (by decide) rfl).1
  · exact (c5_fingerprint_exact.2.1
      ⟨"POST", "/", "/p", "a=1", "", Except.ok ['x']⟩
      ⟨"GET", "/", "/p", "a=1", "", Except.ok []⟩
      (by decide) (by decide) rfl).2
  · exact c5_fingerprint_exact.2.2 emptyStore ("/a?x") ("/a?y") [','] ['1'] (by decide)

theorem storeInv_append (s : Store) (uri : String) (d b : Bytes)
    (hb : b ≠ []) (h : storeInv s) : storeInv (storeAppend s uri d b) := by
  intro k v hv
  by_cases hk : k = uri
  · subst hk
    rw [storeAppend_self] at hv
    cases hcase : s k with
    | none =>
      rw [hcase] at hv
      simp only [Option.some.injEq] at hv
      rw [← hv]
      exact hb
    | some buf =>
      rw [hcase] at hv
      simp only [Option.some.injEq] at hv
      rw [← hv]
      intro hcon
      exact hb (List.append_eq_nil.mp hcon).2
  · rw [storeAppend_other s uri k d b hk] at hv
    exact h k v hv

/-- C8: non-emptiness is an invariant of the coalescing map: it holds of the
initial empty map, is preserved by every request the handler processes (the
handler rejects empty bodies before touching the map), and is preserved by
the flusher's removal of a drained key. -/
theorem c8_buffers_nonempty :
    storeInv emptyStore ∧
    (∀ (delim : String) (s : Store) (inCount : Nat) (r : Request),
       storeInv s → storeInv (dorequest delim s inCount r).1) ∧
    (∀ (s : Store) (k : String), storeInv s → storeInv (storeDelete s k)) := by
  refine ⟨?_, ?_, ?_⟩
  · intro k b h
    exact Option.noConfusion h
  · intro delim s inCount r h
    obtain ⟨m, p, rp, rq, qp, bd⟩ := r
    by_cases hp : p = "/"
    · by_cases hg : m = "GET"
      · simpa [dorequest, hp, hg] using h
      · by_cases hpost : m = "POST"
        · cases bd with
          | error e => simpa [dorequest, hp, hg, hpost] using h
          | ok body =>
            by_cases hlen : 0 < body.length
            · have hne : body ≠ [] := by
                intro hcon
                rw [hcon] at hlen
                simp at hlen
              have hres := storeInv_append s
                (fingerprint ⟨m, p, rp, rq, qp, Except.ok body⟩)
                (chooseDelimiter delim qp).data body hne h
              simpa [dorequest, hp, hg, hpost, hlen] using hres
            · simpa [dorequest, hp, hg, hpost, hlen] using h
        · simpa [dorequest, hp, hg, hpost] using h
    · simpa [dorequest, hp] using h
  · intro s k h k2 b hb
    unfold storeDelete at hb
    by_cases hk : k2 = k
    · simp [hk] at hb
    · simp only [if_neg hk] at hb
      exact h k2 b hb

theorem c8_buffers_nonempty_witness :
    storeInv (dorequest (",") emptyStore 0
      ⟨"POST", "/", "", "q", "q", Except.ok ['a']⟩).1 :=
  c8_buffers_nonempty.2.1 (",") emptyStore 0
    ⟨"POST", "/", "", "q", "q", Except.ok ['a']⟩
    (fun _ _ h => Option.noConfusion h)

/-- C9: a POST to the root path whose body is empty answers status 405 and
leaves both the coalescing map and the `in` counter exactly as they were. -/
theorem c9_empty_post_rejected (delim : String) (s : Store) (inCount : Nat)
    (r : Request) (hp : r.path = "/") (hm : r.method = "POST")
    (hb : r.body = Except.ok []) :
    dorequest delim s inCount r = (s, inCount, 405) := by
  simp [dorequest, hp, hm, hb]

theorem c9_empty_post_rejected_witness :
    dorequest (",") emptyStore 0 ⟨"POST", "/", "", "q=1", "", Except.ok []⟩ =
      (emptyStore, 0, 405) :=
  c9_empty_post_rejected (",") emptyStore 0
    ⟨"POST", "/", "", "q=1", "", Except.ok []⟩ rfl rfl rfl

instance instDecEqExcept {ε α : Type} [DecidableEq ε] [DecidableEq α] :
    DecidableEq (Except ε α)
  | Except.error e1, Except.error e2 =>
    if h : e1 = e2 then isTrue (by rw [h])
    else isFalse (fun hc => h (by injection hc))
  | Except.error _, Except.ok _ => isFalse (fun hc => Except.noConfusion hc)
  | Except.ok _, Except.error _ => isFalse (fun hc => Except.noConfusion hc)
  | Except.ok v1, Except.ok v2 =>
    if h : v1 = v2 then isTrue (by rw [h])
    else isFalse (fun hc => h (by injection hc))

/-- The outcome of one `send` call (lines 342-405): the returned error, the
state of the spill directory (the list of stored pairs of key and value) and
the process-wide status string. -/
structure SendOut where
  err : Option String
  spills : List (String × Bytes)
  status : String
deriving DecidableEq

/-- `send` (lines 342-405).  `buildErr` models the outcome of building the
HTTP request; if building succeeded, `doResult` models the upstream call: a
transport-level error message or the response status code.  A failure before
the call leaves the status string untouched; a failure of the call sets it to
the error text; a 200 response resets it to OK.  With `silent` (spill
enabled) on, a failed non-empty batch is appended to the spill store. -/
def send (buildErr : Option String) (doResult : Except String Nat)
    (key : String) (val : Bytes) (silent : Bool)
    (spills : List (String × Bytes)) (status : String) : SendOut :=
  match buildErr with
  | some e =>
    ⟨some e,
     if silent ∧ 0 < val.length then spills ++ [(key, val)] else spills,
     status⟩
  | none =>
    match doResult with
    | Except.error e =>
      ⟨some e,
       if silent ∧ 0 < val.length then spills ++ [(key, val)] else spills,
       e ++ "\r\n"⟩
    | Except.ok code =>
      if code ≠ 200 then
        ⟨some ("Error: response code not 200"),
         if silent ∧ 0 < val.length then spills ++ [(key, val)] else spills,
         "Error: response code not 200" ++ "\r\n"⟩
      else ⟨none, spills, "OK\r\n"⟩

/-- One step of the flusher's key loop (lines 280-292): read the buffer,
forward it with spill enabled, delete the key — the result of `send` is
discarded. -/
def drainKey (buildErr : Option String) (doResult : Except String Nat)
    (s : Store) (spills : List (String × Bytes)) (status : String)
    (key : String) : Store × List (String × Bytes) × String :=
  let o := send buildErr doResult key ((s key).getD []) true spills status
  (storeDelete s key, o.spills, o.status)

/-- C4 (counterexample): a forward call that fails while building the
request, with spill enabled and a non-empty batch, does spill the pair but
leaves the process-wide status string unchanged instead of setting it to the
error text — refuting the claim that on any failure with spill=true the
status string is set to the error text. -/
theorem c4_forward_contract_counterexample :
    (send (some ("boom")) (Except.ok 200) ("k") ['x'] true [] ("OK\r\n")).err =
      some ("boom") ∧
    (send (some ("boom")) (Except.ok 200) ("k") ['x'] true [] ("OK\r\n")).spills =
      [(("k"), ['x'])] ∧
    (send (some ("boom")) (Except.ok 200) ("k") ['x'] true [] ("OK\r\n")).status =
      "OK\r\n" ∧
    ("OK\r\n" : String) ≠ "boom" ++ "\r\n" := by
  refine ⟨rfl, by decide, rfl, by decide⟩

/-- C4 (amended): a forward call succeeds exactly when the request was built,
the upstream call returned and the status code is exactly 200; on an upstream
failure (transport error or non-200) with spill enabled and a non-empty batch
the pair is spilled and the status string is set to the error text, while on
a request-build failure the pair is spilled but the status string is left
unchanged; with spill disabled a failure returns the error and spills
nothing; success resets the status string to OK; and the flusher deletes the
drained key whatever the forwarding outcome. -/
theorem c4_forward_contract :
    (∀ (buildErr : Option String) (doResult : Except String Nat)
       (key : String) (val : Bytes) (silent : Bool)
       (spills : List (String × Bytes)) (status : String),
       (send buildErr doResult key val silent spills status).err = none ↔
         buildErr = none ∧ doResult = Except.ok 200) ∧
    (∀ (e key : String) (val : Bytes) (spills : List (String × Bytes))
       (status : String), val ≠ [] →
       send none (Except.error e) key val true spills status =
         ⟨some e, spills ++ [(key, val)], e ++ "\r\n"⟩) ∧
    (∀ (code : Nat) (key : String) (val : Bytes)
       (spills : List (String × Bytes)) (status : String),
       code ≠ 200 → val ≠ [] →
       send none (Except.ok code) key val true spills status =
         ⟨some ("Error: response code not 200"), spills ++ [(key, val)],
          "Error: response code not 200" ++ "\r\n"⟩) ∧
    (∀ (e : String) (doResult : Except String Nat) (key : String)
       (val : Bytes) (spills : List (String × Bytes)) (status : String),
       val ≠ [] →
       send (some e) doResult key val true spills status =
         ⟨some e, spills ++ [(key, val)], status⟩) ∧
    (∀ (buildErr : Option String) (doResult : Except String Nat)
       (key : String) (val : Bytes) (spills : List (String × Bytes))
       (status : String),
       ¬(buildErr = none ∧ doResult = Except.ok 200) →
       (send buildErr doResult key val false spills status).err.isSome = true ∧
       (send buildErr doResult key val false spills status).spills = spills) ∧
    (∀ (buildErr : Option String) (doResult : Except String Nat)
       (key : String) (val : Bytes) (silent : Bool)
       (spills : List (String × Bytes)) (status : String),
       (send buildErr doResult key val silent spills status).err = none →
       (send buildErr doResult key val silent spills status).status = "OK\r\n") ∧
    (∀ (be1 be2 : Option String) (dr1 dr2 : Except String Nat) (s : Store)
       (spills1 spills2 : List (String × Bytes)) (status1 status2 : String)
       (key : String),
       (drainKey be1 dr1 s spills1 status1 key).1 =
         (drainKey be2 dr2 s spills2 status2 key).1 ∧
       (drainKey be1 dr1 s spills1 status1 key).1 = storeDelete s key) := by
  refine ⟨?_, ?_, ?_, ?_, ?_, ?_, ?_⟩
  · intro buildErr doResult key val silent spills status
    cases buildErr with
    | some e => simp [send]
    | none =>
      cases doResult with
      | error e => simp [send]
      | ok code =>
        by_cases hc : code = 200
        · subst hc; simp [send]
        · simp [send, hc]
  · intro e key val spills status hval
    simp [send, List.length_pos.mpr hval]
  · intro code key val spills status hc hval
    simp [send, hc, List.length_pos.mpr hval]
  · intro e doResult key val spills status hval
    simp [send, List.length_pos.mpr hval]
  · intro buildErr doResult key val spills status hfail
    cases buildErr with
    | some e => simp [send]
    | none =>
      cases doResult with
      | error e => simp [send]
      | ok code =>
        by_cases hc : code = 200
        · exact absurd ⟨rfl, by rw [hc]⟩ hfail
        · simp [send, hc]
  · intro buildErr doResult key val silent spills status hok
    cases buildErr with
    | some e => simp [send] at hok
    | none =>
      cases doResult with
      | error e => simp [send] at hok
      | ok code =>
        by_cases hc : code = 200
        · subst hc; simp [send]
        · simp [send, hc] at hok
  · intro be1 be2 dr1 dr2 s spills1 spills2 status1 status2 key
    exact ⟨rfl, rfl⟩

theorem c4_forward_contract_witness :
    ((send none (Except.ok 200) ("k") ['x'] true [] ("stale")).err = none) ∧
    (send none (Except.error ("ECONNREFUSED")) ("k") ['x'] true [] ("OK\r\n") =
      ⟨some ("ECONNREFUSED"), [(("k"), ['x'])], "ECONNREFUSED\r\n"⟩) ∧
    (send none (Except.ok 500) ("k") ['x'] true [] ("OK\r\n") =
      ⟨some ("Error: response code not 200"), [(("k"), ['x'])],
       "Error: response code not 200\r\n"⟩) ∧
    (send (some ("bad url")) (Except.ok 200) ("k") ['x'] true [] ("OK\r\n") =
      ⟨some ("bad url"), [(("k"), ['x'])], "OK\r\n"⟩) ∧
    ((send none (Except.ok 500) ("k") ['x'] false [] ("OK\r\n")).spills = []) ∧
    ((send none (Except.ok 200) ("k") ['x'] true [] ("stale")).status = "OK\r\n") ∧
    ((drainKey none (Except.ok 500) emptyStore [] ("OK\r\n") ("k")).1 =
      storeDelete emptyStore ("k")) :=
  ⟨(c4_forward_contract.1 none (Except.ok 200) ("k") ['x'] true [] ("stale")).mpr
     ⟨rfl, rfl⟩,
   c4_forward_contract.2.1 ("ECONNREFUSED") ("k") ['x'] [] ("OK\r\n") (by decide),
   c4_forward_contract.2.2.1 500 ("k") ['x'] [] ("OK\r\n") (by decide) (by decide),
   c4_forward_contract.2.2.2.1 ("bad url") (Except.ok 200) ("k") ['x'] []
     ("OK\r\n") (by decide),
   (c4_forward_contract.2.2.2.2.1 none (Except.ok 500) ("k") ['x'] [] ("OK\r\n")
     (by intro h; exact absurd h.2 (by decide))).2,
   c4_forward_contract.2.2.2.2.2.1 none (Except.ok 200) ("k") ['x'] true []
     ("stale") ((c4_forward_contract.1 none (Except.ok 200) ("k") ['x'] true []
       ("stale")).mpr ⟨rfl, rfl⟩),
   (c4_forward_contract.2.2.2.2.2.2 none none (Except.ok 500) (Except.ok 500)
     emptyStore [] [] ("OK\r\n") ("OK\r\n") ("k")).2⟩

/-- A spill file: its name, the outcome of opening it and listing its keys
(an error models a failed `pudge.Open` or `Keys` call), and its entries,
each a key with the outcome of reading its value. -/
structure SpillFile where
  name : String
  openErr : Option String
  entries : List (String × Except String Bytes)
deriving DecidableEq

/-- The inner key loop of `checkErr` (lines 427-441): read each value and
forward it with spill disabled; stop at the first read or forward failure.
Returns the forward calls actually made and whether every key succeeded. -/
def replayFile (ok : String → Bytes → Bool) :
    List (String × Except String Bytes) → List (String × Bytes) × Bool
  | [] => ([], true)
  | (_, Except.error _) :: _ => ([], false)
  | (k, Except.ok v) :: rest =>
    if ok k v then
      ((k, v) :: (replayFile ok rest).1, (replayFile ok rest).2)
    else ([(k, v)], false)

/-- A file whose open succeeded and whose every key was forwarded. -/
def fileOk (ok : String → Bytes → Bool) (f : SpillFile) : Prop :=
  f.openErr = none ∧ (replayFile ok f.entries).2 = true

/-- The file loop of `checkErr` (lines 417-445): process files in list
order; on an open or forward failure stop at once, keeping the failing file
and every later file; delete a file only after all its keys succeeded.
Returns the files left on disk, the forward calls made, and overall
success. -/
def sweepFiles (ok : String → Bytes → Bool) :
    List SpillFile → List SpillFile × List (String × Bytes) × Bool
  | [] => ([], [], true)
  | f :: rest =>
    match f.openErr with
    | some _ => (f :: rest, [], false)
    | none =>
      if (replayFile ok f.entries).2 then
        ((sweepFiles ok rest).1,
         (replayFile ok f.entries).1 ++ (sweepFiles ok rest).2.1,
         (sweepFiles ok rest).2.2)
      else (f :: rest, (replayFile ok f.entries).1, false)

/-- Byte-wise lexicographic string comparison, as used by Go's string sort. -/
def strLeB : List Char → List Char → Bool
  | [], _ => true
  | _ :: _, [] => false
  | a :: as, b :: bs =>
    if a < b then true
    else if b < a then false
    else strLeB as bs

/-- Line 416: the directory listing is sorted by file name before replay. -/
def sortFiles (dir : List SpillFile) : List SpillFile :=
  List.insertionSort (fun a b => strLeB a.name.data b.name.data = true) dir

/-- `checkErr` (lines 407-447): sort the spill files by name, then replay
them in order. -/
def checkErr (ok : String → Bytes → Bool) (dir : List SpillFile) :
    List SpillFile × List (String × Bytes) × Bool :=
  sweepFiles ok (sortFiles dir)

/-- The forward calls made by replaying a list of files completely. -/
def replayCalls (ok : String → Bytes → Bool) : List SpillFile → List (String × Bytes)
  | [] => []
  | f :: rest => (replayFile ok f.entries).1 ++ replayCalls ok rest

instance instDecFileOk (ok : String → Bytes → Bool) (f : SpillFile) :
    Decidable (fileOk ok f) :=
  inferInstanceAs (Decidable (f.openErr = none ∧ (replayFile ok f.entries).2 = true))

theorem sweepFiles_cons (ok : String → Bytes → Bool) (f : SpillFile)
    (rest : List SpillFile) :
    sweepFiles ok (f :: rest) =
      match f.openErr with
      | some _ => (f :: rest, [], false)
      | none =>
        if (replayFile ok f.entries).2 then
          ((sweepFiles ok rest).1,
           (replayFile ok f.entries).1 ++ (sweepFiles ok rest).2.1,
           (sweepFiles ok rest).2.2)
        else (f :: rest, (replayFile ok f.entries).1, false) := rfl

theorem strLeB_total : ∀ a b : List Char, strLeB a b = true ∨ strLeB b a = true := by
  intro a
  induction a with
  | nil => intro b; left; rfl
  | cons x as ih =>
    intro b
    cases b with
    | nil => right; rfl
    | cons y bs =>
      by_cases hxy : x < y
      · left; simp [strLeB, hxy]
      · by_cases hyx : y < x
        · right; simp [strLeB, hyx]
        · rcases ih bs with h | h
          · left; simp [strLeB, hxy, hyx, h]
          · right; simp [strLeB, hyx, hxy, h]

theorem strLeB_trans : ∀ a b c : List Char,
    strLeB a b = true → strLeB b c = true → strLeB a c = true := by
  intro a
  induction a with
  | nil => intro b c _ _; rfl
  | cons x as ih =>
    intro b c hab hbc
    cases b with
    | nil => simp [strLeB] at hab
    | cons y bs =>
      cases c with
      | nil => simp [strLeB] at hbc
      | cons z cs =>
        by_cases hxy : x < y
        · by_cases hyz : y < z
          · simp [strLeB, lt_trans hxy hyz]
          · by_cases hzy : z < y
            · simp [strLeB, hyz, hzy] at hbc
            · have hyz2 : y = z := le_antisymm (not_lt.mp hzy) (not_lt.mp hyz)
              have hxz : x < z := hyz2 ▸ hxy
              simp [strLeB, hxz]
        · by_cases hyx : y < x
          · simp [strLeB, hxy, hyx] at hab
          · have hxy2 : x = y := le_antisymm (not_lt.mp hyx) (not_lt.mp hxy)
            subst hxy2
            simp [strLeB, lt_irrefl] at hab
            by_cases hxz : x < z
            · simp [strLeB, hxz]
            · by_cases hzx : z < x
              · simp [strLeB, hxz, hzx] at hbc
              · have hxz2 : x = z := le_antisymm (not_lt.mp hzx) (not_lt.mp hxz)
                subst hxz2
                simp [strLeB, lt_irrefl] at hbc ⊢
                exact ih bs cs hab hbc

instance instTotalFileLe :
    IsTotal SpillFile (fun a b : SpillFile => strLeB a.name.data b.name.data = true) :=
  ⟨fun a b => strLeB_total a.name.data b.name.data⟩

instance instTransFileLe :
    IsTrans SpillFile (fun a b : SpillFile => strLeB a.name.data b.name.data = true) :=
  ⟨fun _ _ _ hab hbc => strLeB_trans _ _ _ hab hbc⟩

theorem sweepFiles_all_ok (ok : String → Bytes → Bool) :
    ∀ l : List SpillFile, (∀ f ∈ l, fileOk ok f) →
      sweepFiles ok l = ([], replayCalls ok l, true) := by
  intro l
  induction l with
  | nil => intro _; rfl
  | cons f rest ih =>
    intro h
    have hf := h f (by simp)
    have hrest := ih (fun g hg => h g (by simp [hg]))
    unfold sweepFiles
    rw [hf.1]
    simp [hf.2, hrest, replayCalls]

theorem sweepFiles_skip_ok (ok : String → Bytes → Bool)
    (done : List SpillFile) (h : ∀ g ∈ done, fileOk ok g)
    (rest : List SpillFile) :
    sweepFiles ok (done ++ rest) =
      ((sweepFiles ok rest).1,
       replayCalls ok done ++ (sweepFiles ok rest).2.1,
       (sweepFiles ok rest).2.2) := by
  induction done with
  | nil => simp [replayCalls]
  | cons f d ih =>
    have hf := h f (by simp)
    have hd := ih (fun g hg => h g (by simp [hg]))
    rw [List.cons_append, sweepFiles_cons, hf.1]
    simp [hf.2, hd, replayCalls]

theorem sweepFiles_deleted (ok : String → Bytes → Bool) :
    ∀ (l : List SpillFile) (g : SpillFile),
      g ∈ l → g ∉ (sweepFiles ok l).1 → fileOk ok g := by
  intro l
  induction l with
  | nil => intro g hg; simp at hg
  | cons f rest ih =>
    intro g hg hnot
    cases hopen : f.openErr with
    | some e =>
      exfalso
      apply hnot
      unfold sweepFiles
      rw [hopen]
      exact hg
    | none =>
      by_cases hrep : (replayFile ok f.entries).2 = true
      · rcases List.mem_cons.mp hg with hgf | hgr
        · subst hgf; exact ⟨hopen, hrep⟩
        · refine ih g hgr (fun hcon => hnot ?_)
          unfold sweepFiles
          rw [hopen]
          simp [hrep]
          exact hcon
      · exfalso
        apply hnot
        unfold sweepFiles
        rw [hopen]
        simp [hrep]
        exact List.mem_cons.mp hg

/-- C3: the recovery sweeper sorts the spill files by name (the sorted list
is an ascending permutation of the directory); when every file replays, all
are deleted and the forward calls follow the sorted order; on the first
forward failure, or on a file read failure, it stops at once, so the failing
file and every later file remain on disk and no later file is touched; and a
file is deleted only if its open succeeded and all its keys were
forwarded. -/
theorem c3_recovery_fail_stop :
    (∀ dir : List SpillFile,
       List.Sorted
         (fun a b : SpillFile => strLeB a.name.data b.name.data = true)
         (sortFiles dir) ∧
       (sortFiles dir).Perm dir) ∧
    (∀ (ok : String → Bytes → Bool) (dir : List SpillFile),
       (∀ f ∈ dir, fileOk ok f) →
       checkErr ok dir = ([], replayCalls ok (sortFiles dir), true)) ∧
    (∀ (ok : String → Bytes → Bool) (dir done later : List SpillFile)
       (f : SpillFile),
       sortFiles dir = done ++ f :: later →
       (∀ g ∈ done, fileOk ok g) →
       f.openErr = none → (replayFile ok f.entries).2 = false →
       checkErr ok dir =
         (f :: later,
          replayCalls ok done ++ (replayFile ok f.entries).1, false)) ∧
    (∀ (ok : String → Bytes → Bool) (dir done later : List SpillFile)
       (f : SpillFile) (e : String),
       sortFiles dir = done ++ f :: later →
       (∀ g ∈ done, fileOk ok g) →
       f.openErr = some e →
       checkErr ok dir = (f :: later, replayCalls ok done, false)) ∧
    (∀ (ok : String → Bytes → Bool) (dir : List SpillFile) (g : SpillFile),
       g ∈ sortFiles dir → g ∉ (checkErr ok dir).1 → fileOk ok g) := by
  refine ⟨?_, ?_, ?_, ?_, ?_⟩
  · intro dir
    exact ⟨List.sorted_insertionSort _ dir, List.perm_insertionSort _ dir⟩
  · intro ok dir h
    have hall : ∀ f ∈ sortFiles dir, fileOk ok f := fun f hf =>
      h f ((List.perm_insertionSort _ dir).mem_iff.mp hf)
    exact sweepFiles_all_ok ok (sortFiles dir) hall
  · intro ok dir done later f hsort hdone hopen hrep
    unfold checkErr
    rw [hsort, sweepFiles_skip_ok ok done hdone]
    unfold sweepFiles
    rw [hopen]
    simp [hrep]
  · intro ok dir done later f e hsort hdone hopen
    unfold checkErr
    rw [hsort, sweepFiles_skip_ok ok done hdone]
    unfold sweepFiles
    rw [hopen]
    simp
  · intro ok dir g hg hnot
    exact sweepFiles_deleted ok (sortFiles dir) g hg hnot

theorem c3_recovery_fail_stop_witness :
    (checkErr (fun _ v => decide (v ≠ []))
        [⟨"2", none, [("k2", Except.ok [])]⟩,
         ⟨"1", none, [("k1", Except.ok ['a'])]⟩,
         ⟨"3", none, [("k3", Except.ok ['c'])]⟩] =
      ([⟨"2", none, [("k2", Except.ok [])]⟩,
        ⟨"3", none, [("k3", Except.ok ['c'])]⟩],
       [("k1", ['a']), ("k2", [])], false)) ∧
    (checkErr (fun _ v => decide (v ≠ []))
        [⟨"2", none, [("k2", Except.ok ['b'])]⟩,
         ⟨"1", none, [("k1", Except.ok ['a'])]⟩] =
      ([], [("k1", ['a']), ("k2", ['b'])], true)) := by
  constructor
  · have := c3_recovery_fail_stop.2.2.1 (fun _ v => decide (v ≠ []))
      [⟨"2", none, [("k2", Except.ok [])]⟩,
       ⟨"1", none, [("k1", Except.ok ['a'])]⟩,
       ⟨"3", none, [("k3", Except.ok ['c'])]⟩]
      [⟨"1", none, [("k1", Except.ok ['a'])]⟩]
      [⟨"3", none, [("k3", Except.ok ['c'])]⟩]
      ⟨"2", none, [("k2", Except.ok [])]⟩
      (by decide) (by decide) rfl (by decide)
    exact this.trans (by decide)
  · have := c3_recovery_fail_stop.2.1 (fun _ v => decide (v ≠ []))
      [⟨"2", none, [("k2", Except.ok ['b'])]⟩,
       ⟨"1", none, [("k1", Except.ok ['a'])]⟩]
      (by decide)
    exact this.trans (by decide)

/-- Go strings.Index: the first position at which `pat` occurs as a
contiguous substring, or `none` when it does not occur. -/
def strIndex (pat : List Char) : List Char → Option Nat
  | [] => if pat <+: ([] : List Char) then some 0 else none
  | c :: rest =>
    if pat <+: c :: rest then some 0
    else (strIndex pat rest).map (· + 1)

theorem strIndex_eq_some (pat : List Char) :
    ∀ (l : List Char) (i : Nat), strIndex pat l = some i →
      pat <+: l.drop i ∧ ∀ j, j < i → ¬ pat <+: l.drop j := by
  intro l
  induction l with
  | nil =>
    intro i h
    by_cases hp : pat <+: ([] : List Char)
    · simp only [strIndex, if_pos hp, Option.some.injEq] at h
      subst h
      exact ⟨hp, by omega⟩
    · simp [strIndex, hp] at h
  | cons c rest ih =>
    intro i h
    by_cases hp : pat <+: c :: rest
    · simp only [strIndex, if_pos hp, Option.some.injEq] at h
      subst h
      exact ⟨hp, by omega⟩
    · simp only [strIndex, if_neg hp, Option.map_eq_some'] at h
      obtain ⟨i2, h2, hi⟩ := h
      subst hi
      obtain ⟨hpre, hmin⟩ := ih i2 h2
      refine ⟨by simpa using hpre, ?_⟩
      intro j hj
      cases j with
      | zero => simpa using hp
      | succ j2 =>
        intro hcon
        exact hmin j2 (by omega) (by simpa using hcon)

theorem strIndex_intro (pat : List Char) :
    ∀ (l : List Char) (i : Nat), pat <+: l.drop i →
      (∀ j, j < i → ¬ pat <+: l.drop j) → strIndex pat l = some i := by
  intro l
  induction l with
  | nil =>
    intro i h1 h2
    cases i with
    | zero => simp only [List.drop_zero] at h1; simp [strIndex, h1]
    | succ n =>
      exact absurd (by simpa using h1) (by simpa using h2 0 (Nat.succ_pos n))
  | cons c rest ih =>
    intro i h1 h2
    cases i with
    | zero => simp only [List.drop_zero] at h1; simp [strIndex, h1]
    | succ n =>
      have hp : ¬ pat <+: c :: rest := by simpa using h2 0 (Nat.succ_pos n)
      have hrec := ih n (by simpa using h1)
        (fun j hj hcon => h2 (j + 1) (by omega) (by simpa using hcon))
      simp [strIndex, hp, hrec]

theorem strIndex_eq_none (pat : List Char) :
    ∀ l : List Char, (∀ j, ¬ pat <+: l.drop j) → strIndex pat l = none := by
  intro l
  induction l with
  | nil =>
    intro h
    have h0 : ¬ pat <+: ([] : List Char) := by simpa using h 0
    simp [strIndex, h0]
  | cons c rest ih =>
    intro h
    have h0 : ¬ pat <+: c :: rest := by simpa using h 0
    have hrec := ih (fun j => by simpa using h (j + 1))
    simp [strIndex, h0, hrec]

theorem singleton_not_pre_all {ch : Char} {xs : List Char} (hch : ch ∉ xs) :
    ∀ j, ¬ [ch] <+: xs.drop j := by
  intro j hcon
  obtain ⟨t, ht⟩ := hcon
  have hmem : ch ∈ xs.drop j := by
    rw [← ht]
    simp
  exact hch (List.mem_of_mem_drop hmem)

theorem singleton_not_pre_bounded {ch : Char} {xs : List Char} (hch : ch ∉ xs)
    (ys : List Char) (j : Nat) (hj : j < xs.length) :
    ¬ [ch] <+: (xs ++ ys).drop j := by
  intro hcon
  rw [List.drop_append_eq_append_drop, Nat.sub_eq_zero_of_le (le_of_lt hj),
    List.drop_zero] at hcon
  have hne : xs.drop j ≠ [] := by
    intro hnil
    have := List.drop_eq_nil_iff.mp hnil
    omega
  obtain ⟨d, t, hdt⟩ := List.exists_cons_of_ne_nil hne
  rw [hdt, List.cons_append, List.cons_prefix_cons] at hcon
  have hmem : ch ∈ xs.drop j := by
    rw [hdt, ← hcon.1]
    simp
  exact hch (List.mem_of_mem_drop hmem)

theorem strIndex_singleton_append (ch : Char) (xs ys : List Char)
    (hch : ch ∉ xs) : strIndex [ch] (xs ++ ch :: ys) = some xs.length := by
  apply strIndex_intro
  · rw [List.drop_left]
    exact ⟨ys, rfl⟩
  · exact fun j hj => singleton_not_pre_bounded hch (ch :: ys) j hj

theorem pre_of_append_le {p xs ys : List Char} (hlen : p.length ≤ xs.length)
    (h : p <+: xs ++ ys) : p <+: xs := by
  obtain ⟨t, ht⟩ := h
  have h1 : (p ++ t).take p.length = p := List.take_left p t
  rw [ht, List.take_append_eq_append_take, Nat.sub_eq_zero_of_le hlen,
    List.take_zero, List.append_nil] at h1
  rw [← h1]
  exact List.take_prefix _ _

theorem pre_append_congr {p xs : List Char} (hlen : p.length ≤ xs.length)
    {ys zs : List Char} (h : p <+: xs ++ ys) : p <+: xs ++ zs :=
  (pre_of_append_le hlen h).trans (List.prefix_append xs zs)

theorem take_block (A M rest : List Char) (pos : Nat) (hA : A.length = pos) :
    (A ++ (M ++ rest)).take (pos + M.length) = A ++ M := by
  rw [← List.append_assoc, ← hA, ← List.length_append, List.take_left]

theorem drop_block (A M rest : List Char) (pos : Nat) (hA : A.length = pos) :
    (A ++ (M ++ rest)).drop (pos + M.length) = rest := by
  rw [← List.append_assoc, ← hA, ← List.length_append, List.drop_left]

theorem drop_at (A rest : List Char) (pos : Nat) (hA : A.length = pos) :
    (A ++ rest).drop pos = rest := by
  rw [← hA, List.drop_left]

/-- Go strings.ToLower restricted to the byte-level lowering the extraction
logic relies on. -/
def toLowerStr (l : List Char) : List Char := l.map Char.toLower

/-- The first search pattern of `extractTable` (line 302). -/
def pat20 : List Char := "insert%20into%20".data

/-- The separator searched after the first pattern (line 306). -/
def sep20 : List Char := "%20".data

/-- The second search pattern of `extractTable` (line 313). -/
def patPlus : List Char := "insert+into+".data

/-- The separator searched after the second pattern (line 317). -/
def sepPlus : List Char := "+".data

/-- The default table label (line 300). -/
def unknownName : List Char := "unknown".data

/-- One stage of `extractTable` (lines 302-311 and 313-322): find the
pattern, then the separator after it; keep the slice in between when it is
non-empty, else fall back to `unknown`. -/
def tableFrom (pat sep lowkey : List Char) : List Char :=
  match strIndex pat lowkey with
  | none => unknownName
  | some f =>
    match strIndex sep (lowkey.drop (f + pat.length)) with
    | none => unknownName
    | some t =>
      if 0 < t then (lowkey.drop (f + pat.length)).take t else unknownName

/-- `extractTable` (lines 299-325): lowercase the key, try the `%20`-encoded
pattern, and only when that stage produced `unknown` try the `+`-encoded
pattern. -/
def extractTable (key : List Char) : List Char :=
  let lowkey := toLowerStr key
  let table := tableFrom pat20 sep20 lowkey
  if table = unknownName then tableFrom patPlus sepPlus lowkey else table

theorem tableFrom_found (pat sep A N B : List Char) (hne : N ≠ [])
    (hfirst : ∀ j, j < A.length →
       ¬ pat <+: (A ++ (pat ++ (N ++ (sep ++ B)))).drop j)
    (hsep : ∀ j, j < N.length → ¬ sep <+: (N ++ (sep ++ B)).drop j) :
    tableFrom pat sep (A ++ (pat ++ (N ++ (sep ++ B)))) = N := by
  have h1 : strIndex pat (A ++ (pat ++ (N ++ (sep ++ B)))) = some A.length := by
    apply strIndex_intro
    · rw [List.drop_left]
      exact List.prefix_append _ _
    · exact hfirst
  have hdrop : (A ++ (pat ++ (N ++ (sep ++ B)))).drop (A.length + pat.length) =
      N ++ (sep ++ B) := drop_block A pat _ A.length rfl
  have h2 : strIndex sep (N ++ (sep ++ B)) = some N.length := by
    apply strIndex_intro
    · rw [List.drop_left]
      exact List.prefix_append _ _
    · exact hsep
  unfold tableFrom
  rw [h1]
  dsimp only
  rw [hdrop, h2]
  dsimp only
  simp [List.length_pos.mpr hne, List.take_left]

theorem tableFrom_none (pat sep lowkey : List Char)
    (h : strIndex pat lowkey = none) : tableFrom pat sep lowkey = unknownName := by
  unfold tableFrom
  rw [h]

theorem tableFrom_unterminated (pat sep lowkey : List Char) (f : Nat)
    (h1 : strIndex pat lowkey = some f)
    (h2 : strIndex sep (lowkey.drop (f + pat.length)) = none ∨
      strIndex sep (lowkey.drop (f + pat.length)) = some 0) :
    tableFrom pat sep lowkey = unknownName := by
  unfold tableFrom
  rw [h1]
  dsimp only
  rcases h2 with h2 | h2
  · rw [h2]
  · rw [h2]
    simp

theorem extractTable_eq (key : List Char) :
    extractTable key =
      if tableFrom pat20 sep20 (toLowerStr key) = unknownName then
        tableFrom patPlus sepPlus (toLowerStr key)
      else tableFrom pat20 sep20 (toLowerStr key) := rfl

/-- C6: for a key holding exactly one encoded INSERT INTO clause — the first
(case-insensitive) occurrence of the encoded pattern is the clause, the name
is non-empty and free of the matching separator, and the other encoding is
absent — `extractTable` returns the name lowercased; this holds for both the
`%20` encoding and the `+` encoding, and a key matching neither pattern
yields `unknown`. -/
theorem c6_table_extraction :
    (∀ pre clause name post : List Char,
       toLowerStr clause = pat20 →
       name ≠ [] →
       (∀ j, j < pre.length →
          ¬ pat20 <+: (toLowerStr (pre ++ clause ++ name ++ sep20 ++ post)).drop j) →
       (∀ j, j < name.length →
          ¬ sep20 <+: (toLowerStr name ++ (sep20 ++ toLowerStr post)).drop j) →
       strIndex patPlus (toLowerStr (pre ++ clause ++ name ++ sep20 ++ post)) = none →
       extractTable (pre ++ clause ++ name ++ sep20 ++ post) = toLowerStr name) ∧
    (∀ pre clause name post : List Char,
       toLowerStr clause = patPlus →
       name ≠ [] →
       (∀ j, j < pre.length →
          ¬ patPlus <+: (toLowerStr (pre ++ clause ++ name ++ sepPlus ++ post)).drop j) →
       (∀ j, j < name.length →
          ¬ sepPlus <+: (toLowerStr name ++ (sepPlus ++ toLowerStr post)).drop j) →
       strIndex pat20 (toLowerStr (pre ++ clause ++ name ++ sepPlus ++ post)) = none →
       extractTable (pre ++ clause ++ name ++ sepPlus ++ post) = toLowerStr name) ∧
    (∀ key : List Char,
       strIndex pat20 (toLowerStr key) = none →
       strIndex patPlus (toLowerStr key) = none →
       extractTable key = unknownName) := by
  refine ⟨?_, ?_, ?_⟩
  · intro pre clause name post hclause hne hfirst hsep hplus
    have hclause2 : clause.map Char.toLower = pat20 := hclause
    have hsep20 : sep20.map Char.toLower = sep20 := by decide
    have hL : toLowerStr (pre ++ clause ++ name ++ sep20 ++ post) =
        toLowerStr pre ++
          (pat20 ++ (toLowerStr name ++ (sep20 ++ toLowerStr post))) := by
      simp only [toLowerStr, List.map_append, List.append_assoc, hclause2, hsep20]
    have hneN : toLowerStr name ≠ [] := by
      simp only [toLowerStr, ne_eq, List.map_eq_nil_iff]
      exact hne
    have hfirst2 : ∀ j, j < (toLowerStr pre).length →
        ¬ pat20 <+:
          (toLowerStr pre ++
            (pat20 ++ (toLowerStr name ++ (sep20 ++ toLowerStr post)))).drop j := by
      intro j hj
      rw [← hL]
      exact hfirst j (by simpa [toLowerStr] using hj)
    have hsep2 : ∀ j, j < (toLowerStr name).length →
        ¬ sep20 <+: (toLowerStr name ++ (sep20 ++ toLowerStr post)).drop j := by
      intro j hj
      exact hsep j (by simpa [toLowerStr] using hj)
    have ht1 := tableFrom_found pat20 sep20 (toLowerStr pre) (toLowerStr name)
      (toLowerStr post) hneN hfirst2 hsep2
    have hplus2 : strIndex patPlus
        (toLowerStr pre ++
          (pat20 ++ (toLowerStr name ++ (sep20 ++ toLowerStr post)))) = none := by
      rw [← hL]
      exact hplus
    rw [extractTable_eq, hL, ht1]
    by_cases hu : toLowerStr name = unknownName
    · rw [if_pos hu, tableFrom_none patPlus sepPlus _ hplus2]
      exact hu.symm
    · rw [if_neg hu]
  · intro pre clause name post hclause hne hfirst hsep h20
    have hclause2 : clause.map Char.toLower = patPlus := hclause
    have hsepP : sepPlus.map Char.toLower = sepPlus := by decide
    have hL : toLowerStr (pre ++ clause ++ name ++ sepPlus ++ post) =
        toLowerStr pre ++
          (patPlus ++ (toLowerStr name ++ (sepPlus ++ toLowerStr post))) := by
      simp only [toLowerStr, List.map_append, List.append_assoc, hclause2, hsepP]
    have hneN : toLowerStr name ≠ [] := by
      simp only [toLowerStr, ne_eq, List.map_eq_nil_iff]
      exact hne
    have hfirst2 : ∀ j, j < (toLowerStr pre).length →
        ¬ patPlus <+:
          (toLowerStr pre ++
            (patPlus ++ (toLowerStr name ++ (sepPlus ++ toLowerStr post)))).drop j := by
      intro j hj
      rw [← hL]
      exact hfirst j (by simpa [toLowerStr] using hj)
    have hsep2 : ∀ j, j < (toLowerStr name).length →
        ¬ sepPlus <+: (toLowerStr name ++ (sepPlus ++ toLowerStr post)).drop j := by
      intro j hj
      exact hsep j (by simpa [toLowerStr] using hj)
    have ht1 := tableFrom_found patPlus sepPlus (toLowerStr pre) (toLowerStr name)
      (toLowerStr post) hneN hfirst2 hsep2
    have h20b : strIndex pat20
        (toLowerStr pre ++
          (patPlus ++ (toLowerStr name ++ (sepPlus ++ toLowerStr post)))) = none := by
      rw [← hL]
      exact h20
    rw [extractTable_eq, hL, tableFrom_none pat20 sep20 _ h20b, if_pos rfl, ht1]
  · intro key h1 h2
    rw [extractTable_eq, tableFrom_none pat20 sep20 _ h1, if_pos rfl,
      tableFrom_none patPlus sepPlus _ h2]

theorem c6_table_extraction_witness :
    extractTable ("xINSERT%20INTO%20Tbl%20y".data) = "tbl".data ∧
    extractTable ("INSERT+INTO+Abc+VALUES".data) = "abc".data ∧
    extractTable ("no such clause here".data) = unknownName := by
  refine ⟨?_, ?_, ?_⟩
  · have hstep := c6_table_extraction.1 ("x".data) ("INSERT%20INTO%20".data)
      ("Tbl".data) ("y".data) (by decide) (by decide) (by decide) (by decide)
      (by decide)
    have harg : ("x".data ++ "INSERT%20INTO%20".data ++ "Tbl".data ++ sep20 ++
        "y".data) = "xINSERT%20INTO%20Tbl%20y".data := by decide
    rw [← harg]
    exact hstep.trans (by decide)
  · have hstep := c6_table_extraction.2.1 ([]) ("INSERT+INTO+".data)
      ("Abc".data) ("VALUES".data) (by decide) (by decide) (by decide)
      (by decide) (by decide)
    have harg : (([] : List Char) ++ "INSERT+INTO+".data ++ "Abc".data ++
        sepPlus ++ "VALUES".data) = "INSERT+INTO+Abc+VALUES".data := by decide
    rw [← harg]
    exact hstep.trans (by decide)
  · exact c6_table_extraction.2.2 ("no such clause here".data)
      (by decide) (by decide)

/-- C10: the `+`-encoded pattern is consulted only when the `%20` stage
produced `unknown` (irrespective of which pattern occurs first in the key);
and when a pattern occurs but the following name is unterminated (no matching
separator afterwards) or empty (the separator immediately follows), the stage
yields `unknown`, so a key where this holds for the occurring encoding and
the other encoding is absent extracts to `unknown`. -/
theorem c10_extract_fallback :
    (∀ key : List Char,
       tableFrom pat20 sep20 (toLowerStr key) ≠ unknownName →
       extractTable key = tableFrom pat20 sep20 (toLowerStr key)) ∧
    (∀ (key : List Char) (f : Nat),
       strIndex pat20 (toLowerStr key) = some f →
       (strIndex sep20 ((toLowerStr key).drop (f + pat20.length)) = none ∨
        strIndex sep20 ((toLowerStr key).drop (f + pat20.length)) = some 0) →
       strIndex patPlus (toLowerStr key) = none →
       extractTable key = unknownName) ∧
    (∀ (key : List Char) (f : Nat),
       strIndex pat20 (toLowerStr key) = none →
       strIndex patPlus (toLowerStr key) = some f →
       (strIndex sepPlus ((toLowerStr key).drop (f + patPlus.length)) = none ∨
        strIndex sepPlus ((toLowerStr key).drop (f + patPlus.length)) = some 0) →
       extractTable key = unknownName) := by
  refine ⟨?_, ?_, ?_⟩
  · intro key h
    rw [extractTable_eq, if_neg h]
  · intro key f h1 h2 h3
    rw [extractTable_eq, tableFrom_unterminated pat20 sep20 _ f h1 h2,
      if_pos rfl, tableFrom_none patPlus sepPlus _ h3]
  · intro key f h1 h2 h3
    rw [extractTable_eq, tableFrom_none pat20 sep20 _ h1, if_pos rfl,
      tableFrom_unterminated patPlus sepPlus _ f h2 h3]

theorem c10_extract_fallback_witness :
    extractTable ("insert+into+a+b insert%20into%20t%20v".data) = "t".data ∧
    extractTable ("insert%20into%20name".data) = unknownName ∧
    extractTable ("insert+into+name".data) = unknownName := by
  refine ⟨?_, ?_, ?_⟩
  · have hstep := c10_extract_fallback.1
      ("insert+into+a+b insert%20into%20t%20v".data) (by decide)
    exact hstep.trans (by decide)
  · exact c10_extract_fallback.2.1 ("insert%20into%20name".data) 0
      (by decide) (Or.inl (by decide)) (by decide)
  · exact c10_extract_fallback.2.2 ("insert+into+name".data) 0
      (by decide) (by decide) (Or.inl (by decide))

/-- The redaction marker of `hidePassword` (line 329). -/
def passMark : List Char := "password=".data

/-- `hidePassword` (lines 328-339): find the first `password=`; replace
everything between it and the next ampersand (or the end of the string when
there is none) by a single asterisk.  The ampersand search starts at the
position of the marker. -/
def hidePassword (str : List Char) : List Char :=
  match strIndex passMark str with
  | none => str
  | some pos =>
    match strIndex ['&'] (str.drop pos) with
    | none => str.take (pos + passMark.length) ++ ['*']
    | some pos2 => str.take (pos + passMark.length) ++ '*' :: str.drop (pos + pos2)

/-- C7: the redactor replaces the characters between the first `password=`
and the next ampersand (or the end of the string) by a single asterisk and
leaves everything else unchanged; and it is idempotent on every string. -/
theorem c7_redactor_idempotent :
    (∀ a b c : List Char,
       (∀ j, j < a.length →
          ¬ passMark <+: (a ++ (passMark ++ (b ++ '&' :: c))).drop j) →
       ('&' : Char) ∉ b →
       hidePassword (a ++ (passMark ++ (b ++ '&' :: c))) =
         a ++ (passMark ++ '*' :: '&' :: c)) ∧
    (∀ a b : List Char,
       (∀ j, j < a.length → ¬ passMark <+: (a ++ (passMark ++ b)).drop j) →
       ('&' : Char) ∉ b →
       hidePassword (a ++ (passMark ++ b)) = a ++ (passMark ++ ['*'])) ∧
    (∀ s : List Char, hidePassword (hidePassword s) = hidePassword s) := by
  refine ⟨?_, ?_, ?_⟩
  · intro a b c hfirst hb
    have h1 : strIndex passMark (a ++ (passMark ++ (b ++ '&' :: c))) =
        some a.length := by
      apply strIndex_intro
      · rw [List.drop_left]
        exact List.prefix_append _ _
      · exact hfirst
    have hdrop : (a ++ (passMark ++ (b ++ '&' :: c))).drop a.length =
        passMark ++ (b ++ '&' :: c) := drop_at a _ a.length rfl
    have hnoamp : ('&' : Char) ∉ passMark ++ b := by
      intro hmem
      rcases List.mem_append.mp hmem with h | h
      · exact absurd h (by decide)
      · exact hb h
    have h2 : strIndex ['&'] (passMark ++ (b ++ '&' :: c)) =
        some (passMark.length + b.length) := by
      have hraw := strIndex_singleton_append '&' (passMark ++ b) c hnoamp
      rw [List.append_assoc] at hraw
      simpa using hraw
    unfold hidePassword
    rw [h1]
    dsimp only
    rw [hdrop, h2]
    dsimp only
    rw [take_block a passMark _ a.length rfl]
    have hdrop2 : (a ++ (passMark ++ (b ++ '&' :: c))).drop
        (a.length + (passMark.length + b.length)) = '&' :: c := by
      have hre : a ++ (passMark ++ (b ++ '&' :: c)) =
          (a ++ (passMark ++ b)) ++ '&' :: c := by
        simp [List.append_assoc]
      rw [hre]
      apply drop_at
      simp [List.length_append]
    rw [hdrop2, List.append_assoc]
  · intro a b hfirst hb
    have h1 : strIndex passMark (a ++ (passMark ++ b)) = some a.length := by
      apply strIndex_intro
      · rw [List.drop_left]
        exact List.prefix_append _ _
      · exact hfirst
    have hdrop : (a ++ (passMark ++ b)).drop a.length = passMark ++ b :=
      drop_at a _ a.length rfl
    have hnoamp : ('&' : Char) ∉ passMark ++ b := by
      intro hmem
      rcases List.mem_append.mp hmem with h | h
      · exact absurd h (by decide)
      · exact hb h
    have h2 : strIndex ['&'] (passMark ++ b) = none :=
      strIndex_eq_none _ _ (singleton_not_pre_all hnoamp)
    unfold hidePassword
    rw [h1]
    dsimp only
    rw [hdrop, h2]
    dsimp only
    rw [take_block a passMark b a.length rfl, List.append_assoc]
  · intro s
    cases h1 : strIndex passMark s with
    | none =>
      have hs : hidePassword s = s := by
        unfold hidePassword
        rw [h1]
      rw [hs]
      exact hs
    | some pos =>
      obtain ⟨hpre, hmin⟩ := strIndex_eq_some passMark s pos h1
      obtain ⟨tail, htail⟩ := hpre
      have hposle : pos ≤ s.length := by
        by_contra hcon
        push_neg at hcon
        have hdnil : s.drop pos = [] := List.drop_eq_nil_of_le (le_of_lt hcon)
        rw [hdnil] at htail
        have hlen := congrArg List.length htail
        simp only [List.length_append, List.length_nil] at hlen
        have h9 : passMark.length = 9 := rfl
        omega
      have hs2 : s = s.take pos ++ (passMark ++ tail) := by
        conv_lhs => rw [← List.take_append_drop pos s]
        rw [← htail]
      have hA : (s.take pos).length = pos := by
        rw [List.length_take]
        exact Nat.min_eq_left hposle
      have htransfer : ∀ zs : List Char,
          strIndex passMark (s.take pos ++ (passMark ++ zs)) = some pos := by
        intro zs
        apply strIndex_intro
        · rw [drop_at _ _ pos hA]
          exact List.prefix_append _ _
        · intro j hj hcon
          have hj2 : j ≤ (s.take pos ++ passMark).length := by
            rw [List.length_append, hA]
            omega
          have hsplit : ∀ ws : List Char,
              (s.take pos ++ (passMark ++ ws)).drop j =
                (s.take pos ++ passMark).drop j ++ ws := by
            intro ws
            rw [← List.append_assoc, List.drop_append_eq_append_drop,
              Nat.sub_eq_zero_of_le hj2, List.drop_zero]
          rw [hsplit zs] at hcon
          have hxs : passMark.length ≤ ((s.take pos ++ passMark).drop j).length := by
            rw [List.length_drop, List.length_append, hA]
            omega
          have hcon2 : passMark <+: (s.take pos ++ passMark).drop j ++ tail :=
            pre_append_congr hxs hcon
          rw [← hsplit tail] at hcon2
          exact hmin j hj (by rw [hs2]; exact hcon2)
      cases h2 : strIndex ['&'] (s.drop pos) with
      | none =>
        have ht : hidePassword s = s.take pos ++ (passMark ++ ['*']) := by
          unfold hidePassword
          rw [h1]
          dsimp only
          rw [h2]
          dsimp only
          conv_lhs => rw [hs2]
          rw [take_block _ passMark tail pos hA, List.append_assoc]
        rw [ht]
        have h1b := htransfer ['*']
        unfold hidePassword
        rw [h1b]
        dsimp only
        rw [drop_at _ _ pos hA]
        have h2b : strIndex ['&'] (passMark ++ ['*']) = none :=
          strIndex_eq_none _ _ (singleton_not_pre_all (by decide))
        rw [h2b]
        dsimp only
        rw [take_block _ passMark ['*'] pos hA, List.append_assoc]
      | some pos2 =>
        obtain ⟨hpre2, _⟩ := strIndex_eq_some ['&'] (s.drop pos) pos2 h2
        rw [List.drop_drop] at hpre2
        obtain ⟨c2, hc2⟩ := hpre2
        have hdam : s.drop (pos + pos2) = '&' :: c2 := by
          rw [← hc2]
          rfl
        have ht : hidePassword s = s.take pos ++ (passMark ++ '*' :: '&' :: c2) := by
          unfold hidePassword
          rw [h1]
          dsimp only
          rw [h2]
          dsimp only
          rw [hdam]
          conv_lhs => rw [hs2]
          rw [take_block _ passMark tail pos hA, List.append_assoc]
        rw [ht]
        have h1b := htransfer ('*' :: '&' :: c2)
        unfold hidePassword
        rw [h1b]
        dsimp only
        rw [drop_at _ _ pos hA]
        have h2b : strIndex ['&'] (passMark ++ '*' :: '&' :: c2) =
            some (passMark.length + 1) := by
          have hraw := strIndex_singleton_append '&' (passMark ++ ['*']) c2 (by decide)
          rw [List.append_assoc] at hraw
          simpa using hraw
        rw [h2b]
        dsimp only
        rw [take_block _ passMark _ pos hA]
        have hd2 : (s.take pos ++ (passMark ++ '*' :: '&' :: c2)).drop
            (pos + (passMark.length + 1)) = '&' :: c2 := by
          have hre : s.take pos ++ (passMark ++ '*' :: '&' :: c2) =
              s.take pos ++ ((passMark ++ ['*']) ++ '&' :: c2) := by
            simp
          rw [hre]
          have hamt : pos + (passMark.length + 1) = pos + (passMark ++ ['*']).length := by
            simp
          rw [hamt]
          exact drop_block _ _ _ pos hA
        rw [hd2, List.append_assoc]

theorem c7_redactor_idempotent_witness :
    hidePassword ("u=1&password=secret&x=2".data) = "u=1&password=*&x=2".data ∧
    hidePassword ("password=abc".data) = "password=*".data ∧
    hidePassword (hidePassword ("u=1&password=secret&x=2".data)) =
      hidePassword ("u=1&password=secret&x=2".data) := by
  refine ⟨?_, ?_, ?_⟩
  · have hstep := c7_redactor_idempotent.1 ("u=1&".data) ("secret".data)
      ("x=2".data) (by decide) (by decide)
    have harg : ("u=1&".data ++ (passMark ++ ("secret".data ++ '&' :: "x=2".data))) =
        "u=1&password=secret&x=2".data := by decide
    rw [← harg]
    exact hstep.trans (by decide)
  · have hstep := c7_redactor_idempotent.2.1 ([]) ("abc".data)
      (by decide) (by decide)
    have harg : (([] : List Char) ++ (passMark ++ "abc".data)) =
        "password=abc".data := by decide
    rw [← harg]
    exact hstep.trans (by decide)
  · exact c7_redactor_idempotent.2.2 ("u=1&password=secret&x=2".data)

end Proxyhouse
